import Mathlib

/-!
Verification of the mainstay attestation service core against its
natural-language specification.  The Go source is shallowly embedded:
pure functions are translated to Lean functions, Go's 64-bit signed
integer arithmetic is modelled on `Int` with an explicit wraparound
`wrap64`, 32-bit unsigned arithmetic on `Nat` with `% 2^32`, fallible
code returns `Option`/`Except`, and external collaborators (bitcoin RPC,
the crypto package, the fee oracle, the record store) appear as explicit
function parameters or as definitions modelled from the specification.
-/

namespace Mainstay

/-- A commitment hash (`chainhash.Hash`, 32 bytes), modelled as its byte list. -/
structure Hash where
  bytes : List Nat
deriving Repr, DecidableEq

/-- The zero hash `chainhash.Hash{}`. -/
def zeroHash : Hash := ⟨List.replicate 32 0⟩

/-- Go 64-bit signed integer wraparound: two's-complement reduction of an
unbounded integer into `[-2^63, 2^63)`. -/
def wrap64 (x : Int) : Int := (x + 2 ^ 63) % 2 ^ 64 - 2 ^ 63

theorem wrap64_eq_self {x : Int} (h1 : -2 ^ 63 ≤ x) (h2 : x < 2 ^ 63) :
    wrap64 x = x := by
  unfold wrap64
  have h0 : (0 : Int) ≤ x + 2 ^ 63 := by linarith
  have hlt : x + 2 ^ 63 < 2 ^ 64 := by norm_num at h2 ⊢; linarith
  rw [Int.emod_eq_of_lt h0 hlt]
  ring

/-- Go 32-bit unsigned subtraction `a - b` on `uint32`. -/
def u32sub (a b : Nat) : Nat := (a + (2 ^ 32 - b % 2 ^ 32)) % 2 ^ 32

/-- Go conversion of a non-negative integral float64 value to `uint32`,
as performed on amd64 (truncation of the low 32 bits).  The Go spec leaves
out-of-range float-to-integer conversions implementation-defined; the
deployment platform truncates. -/
def f64ToU32 (x : Nat) : Nat := x % 2 ^ 32

/-! ## Signer transport framing (`SerializeBytes` / `UnserializeBytes`) -/

/-- `SerializeBytes` (attestsigner_zmq.go): transform a list of byte slices
into a single slice with format `[len bytes0] [bytes0] [len bytes1] [bytes1]`;
each length is written as one byte (`byte(len(dataX))`, i.e. mod 256). -/
def SerializeBytes : List (List Nat) → List Nat
  | [] => []
  | dataX :: rest => (dataX.length % 256) :: dataX ++ SerializeBytes rest

/-- `UnserializeBytes` (attestsigner_zmq.go): split a serialized slice back
into the list of byte slices, reading one length byte then that many data
bytes; stop when the announced size exceeds the remaining bounds. -/
def UnserializeBytes : List Nat → List (List Nat)
  | [] => []
  | txSize :: rest =>
    if txSize ≤ rest.length then
      rest.take txSize :: UnserializeBytes (rest.drop txSize)
    else []
termination_by l => l.length
decreasing_by
  simp only [List.length_cons, List.length_drop]
  omega

theorem unserializeBytes_nil : UnserializeBytes [] = [] := by
  rw [UnserializeBytes.eq_def]

theorem unserializeBytes_cons (txSize : Nat) (rest : List Nat) :
    UnserializeBytes (txSize :: rest) =
      if txSize ≤ rest.length then
        rest.take txSize :: UnserializeBytes (rest.drop txSize)
      else [] := by
  conv_lhs => rw [UnserializeBytes.eq_def]

theorem unserialize_serialize (xs : List (List Nat))
    (h : ∀ c ∈ xs, c.length ≤ 255) :
    UnserializeBytes (SerializeBytes xs) = xs := by
  induction xs with
  | nil => simp [SerializeBytes, unserializeBytes_nil]
  | cons c rest ih =>
    have hc : c.length % 256 = c.length :=
      Nat.mod_eq_of_lt (Nat.lt_succ_of_le (h c (by simp)))
    have hlen : c.length ≤ (c ++ SerializeBytes rest).length := by
      simp [List.length_append]
    rw [SerializeBytes, List.cons_append]
    rw [unserializeBytes_cons (c.length % 256) (c ++ SerializeBytes rest)]
    rw [hc]
    rw [if_pos hlen]
    rw [List.take_left, List.drop_left]
    rw [ih (fun x hx => h x (by simp [hx]))]

/-- C3: for every list of byte chunks each of length at most 255,
`UnserializeBytes` inverts `SerializeBytes`; the empty list serializes to the
empty payload; and `[[0xAA], [0xBB, 0xCC]]` serializes to
`0x01 AA 02 BB CC`. -/
theorem C3_serialize_unserialize_roundtrip :
    (∀ xs : List (List Nat), (∀ c ∈ xs, c.length ≤ 255) →
        UnserializeBytes (SerializeBytes xs) = xs)
    ∧ SerializeBytes [] = []
    ∧ SerializeBytes [[0xAA], [0xBB, 0xCC]] = [0x01, 0xAA, 0x02, 0xBB, 0xCC] := by
  refine ⟨unserialize_serialize, rfl, by decide⟩

/-- Witness for C3 at the concrete chunk list `[[170], [187, 204]]`. -/
theorem C3_witness :
    UnserializeBytes (SerializeBytes [[170], [187, 204]]) = [[170], [187, 204]] :=
  C3_serialize_unserialize_roundtrip.1 [[170], [187, 204]] (by decide)

/-! ## Fee controller (`attestfees.go`) -/

/-- Default fee per byte values in satoshis (`attestfees.go`). -/
def DefaultMinFee : Int := 10

/-- Default maximum fee per byte in satoshis. -/
def DefaultMaxFee : Int := 100

/-- Default fee increment in satoshis. -/
def DefaultFeeIncrement : Int := 5

/-- `config.FeesConfig`: the fee limits read from configuration (Go `int`,
modelled as unbounded `Int`; real config values fit in 64 bits). -/
structure FeesConfig where
  minFee : Int
  maxFee : Int
  feeIncrement : Int
deriving Repr, DecidableEq

/-- `AttestFees` struct (attestfees.go). -/
structure AttestFees where
  minFee : Int
  maxFee : Int
  feeIncrement : Int
  currentFee : Int
deriving Repr, DecidableEq

/-- `getBestFee`/`getFeeFromAPI`: the oracle HTTP fetch is external; its
observable outcome is either a fee value or a failure, which the source maps
to `-1` (request error, decode error or missing field all return `-1`). -/
def getBestFee (oracle : Option Int) : Int := oracle.getD (-1)

/-- `ResetFee` (attestfees.go): with a `useMinimum` variadic argument whose
first value is `true`, set the current fee to `minFee`; otherwise query the
oracle and clamp the result between `minFee` and `maxFee`. -/
def ResetFee (a : AttestFees) (useMinimum : List Bool) (oracle : Option Int) :
    AttestFees :=
  let fee :=
    if useMinimum.head? = some true then a.minFee
    else
      let fee := getBestFee oracle
      if fee < a.minFee then a.minFee
      else if fee > a.maxFee then a.maxFee
      else fee
  { a with currentFee := fee }

/-- `BumpFee` (attestfees.go): add the increment (Go 64-bit addition), then
cap at `maxFee`. -/
def BumpFee (a : AttestFees) : AttestFees :=
  let current := wrap64 (a.currentFee + a.feeIncrement)
  if current > a.maxFee then { a with currentFee := a.maxFee }
  else { a with currentFee := current }

/-- `NewAttestFees` (attestfees.go): per-field validation with fallback to
the defaults, then an initial `ResetFee()` with no arguments; the oracle
response observed by that reset is the `oracle` parameter. -/
def NewAttestFees (oracle : Option Int) (feesConfig : FeesConfig) : AttestFees :=
  let minFee :=
    if feesConfig.minFee > 0 ∧ feesConfig.minFee < DefaultMaxFee then
      feesConfig.minFee
    else DefaultMinFee
  let maxFee :=
    if feesConfig.maxFee > 0 ∧ feesConfig.maxFee > minFee ∧
        feesConfig.maxFee < DefaultMaxFee then
      feesConfig.maxFee
    else DefaultMaxFee
  let feeIncrement :=
    if feesConfig.feeIncrement > 0 then feesConfig.feeIncrement
    else DefaultFeeIncrement
  ResetFee
    { minFee := minFee, maxFee := maxFee, feeIncrement := feeIncrement,
      currentFee := 0 } [] oracle

/-- One call into the fee controller: a `ResetFee` with its variadic argument
and the oracle response it observes, or a `BumpFee`. -/
inductive FeeOp
  | reset (useMinimum : List Bool) (oracle : Option Int)
  | bump
deriving Repr

/-- Apply one fee-controller call. -/
def applyFeeOp (a : AttestFees) : FeeOp → AttestFees
  | .reset us oracle => ResetFee a us oracle
  | .bump => BumpFee a

/-- Inductive invariant of the fee controller: the limits produced by
`NewAttestFees` validation together with the in-range current fee and an
increment small enough that bumping cannot overflow 64 bits. -/
def FeesGood (a : AttestFees) : Prop :=
  1 ≤ a.minFee ∧ a.minFee < a.maxFee ∧ a.maxFee ≤ 100 ∧
  a.minFee ≤ a.currentFee ∧ a.currentFee ≤ a.maxFee ∧
  1 ≤ a.feeIncrement ∧ a.feeIncrement < 2 ^ 63 - 100

theorem resetFee_fields (a : AttestFees) (us : List Bool) (oracle : Option Int) :
    (ResetFee a us oracle).minFee = a.minFee ∧
    (ResetFee a us oracle).maxFee = a.maxFee ∧
    (ResetFee a us oracle).feeIncrement = a.feeIncrement := by
  simp [ResetFee]

theorem resetFee_current_bounds (a : AttestFees) (us : List Bool)
    (oracle : Option Int) (hmm : a.minFee ≤ a.maxFee) :
    a.minFee ≤ (ResetFee a us oracle).currentFee ∧
    (ResetFee a us oracle).currentFee ≤ a.maxFee := by
  simp only [ResetFee, getBestFee]
  split_ifs <;> simp_all <;> omega

theorem resetFee_feesGood (a : AttestFees) (us : List Bool) (oracle : Option Int)
    (h : FeesGood a) : FeesGood (ResetFee a us oracle) := by
  obtain ⟨h1, h2, h3, _, _, h6, h7⟩ := h
  obtain ⟨hb1, hb2⟩ := resetFee_current_bounds a us oracle (le_of_lt h2)
  obtain ⟨e1, e2, e3⟩ := resetFee_fields a us oracle
  exact ⟨e1 ▸ h1, by rw [e1, e2]; exact h2, e2 ▸ h3, e1 ▸ hb1, e2 ▸ hb2,
    e3 ▸ h6, e3 ▸ h7⟩

theorem bumpFee_feesGood (a : AttestFees) (h : FeesGood a) :
    FeesGood (BumpFee a) := by
  obtain ⟨mn, mx, inc, cur⟩ := a
  dsimp only [FeesGood] at h
  obtain ⟨h1, h2, h3, h4, h5, h6, h7⟩ := h
  have hw : wrap64 (cur + inc) = cur + inc :=
    wrap64_eq_self (by omega) (by omega)
  dsimp only [FeesGood, BumpFee]
  rw [hw]
  split_ifs with hcap <;> dsimp only [] <;> omega

theorem foldl_feesGood (ops : List FeeOp) (a : AttestFees) (h : FeesGood a) :
    FeesGood (ops.foldl applyFeeOp a) := by
  induction ops generalizing a with
  | nil => exact h
  | cons op rest ih =>
    cases op with
    | reset us oracle => exact ih _ (resetFee_feesGood a us oracle h)
    | bump => exact ih _ (bumpFee_feesGood a h)

theorem newAttestFees_feesGood (oracle : Option Int) (cfg : FeesConfig)
    (hinc : cfg.feeIncrement < 2 ^ 63 - 100) :
    FeesGood (NewAttestFees oracle cfg) := by
  unfold NewAttestFees
  set mn := if cfg.minFee > 0 ∧ cfg.minFee < DefaultMaxFee then cfg.minFee
    else DefaultMinFee with hmn
  set mx := if cfg.maxFee > 0 ∧ cfg.maxFee > mn ∧ cfg.maxFee < DefaultMaxFee
    then cfg.maxFee else DefaultMaxFee with hmx
  set inc := if cfg.feeIncrement > 0 then cfg.feeIncrement
    else DefaultFeeIncrement with hinc2
  have hmn1 : 1 ≤ mn ∧ mn ≤ 99 := by
    rw [hmn]; unfold DefaultMinFee DefaultMaxFee; split_ifs <;> omega
  have hmx1 : mn < mx ∧ mx ≤ 100 := by
    rw [hmx]; unfold DefaultMaxFee; split_ifs <;> omega
  have hinc1 : 1 ≤ inc ∧ inc < 2 ^ 63 - 100 := by
    rw [hinc2]; unfold DefaultFeeIncrement; split_ifs <;> omega
  set base : AttestFees :=
    { minFee := mn, maxFee := mx, feeIncrement := inc, currentFee := 0 }
    with hbase
  obtain ⟨hb1, hb2⟩ := resetFee_current_bounds base [] oracle (le_of_lt hmx1.1)
  obtain ⟨e1, e2, e3⟩ := resetFee_fields base [] oracle
  rw [hbase] at e1 e2 e3
  exact ⟨e1 ▸ hmn1.1, by rw [e1, e2]; exact hmx1.1, e2 ▸ hmx1.2, e1 ▸ hb1,
    e2 ▸ hb2, e3 ▸ hinc1.1, e3 ▸ hinc1.2⟩

/-- C4 counterexample: at the reachable fee state
`(minFee 10, maxFee 100, feeIncrement 2^63 - 1, currentFee 10)` the Go
addition in `BumpFee` wraps around 64 bits, so the result is not
`min (currentFee + feeIncrement) maxFee` (which would be `100`). -/
theorem C4_counterexample :
    BumpFee
        { minFee := 10, maxFee := 100, feeIncrement := 2 ^ 63 - 1,
          currentFee := 10 } ≠
      { minFee := 10, maxFee := 100, feeIncrement := 2 ^ 63 - 1,
        currentFee := min ((10 : Int) + (2 ^ 63 - 1)) 100 } := by
  decide

/-- C4 (amended): `ResetFee` with `useMinimum` true sets the current fee to
`minFee`; without `useMinimum` it clamps the oracle fee into
`[minFee, maxFee]` and falls back to `minFee` on oracle failure (the failure
sentinel `-1` is below any non-negative `minFee`); `BumpFee` sets the current
fee to `min (currentFee + feeIncrement) maxFee` provided the sum does not
overflow a signed 64-bit integer. -/
theorem C4_resetFee_bumpFee (a : AttestFees) (us : List Bool)
    (oracle : Option Int) (v : Int)
    (hmm : a.minFee ≤ a.maxFee) (hmin0 : 0 ≤ a.minFee)
    (hlo : -2 ^ 63 ≤ a.currentFee + a.feeIncrement)
    (hhi : a.currentFee + a.feeIncrement < 2 ^ 63) :
    (us.head? = some true →
        ResetFee a us oracle = { a with currentFee := a.minFee })
    ∧ ResetFee a [] (some v) =
        { a with currentFee := max a.minFee (min v a.maxFee) }
    ∧ ResetFee a [] none = { a with currentFee := a.minFee }
    ∧ BumpFee a =
        { a with currentFee := min (a.currentFee + a.feeIncrement) a.maxFee } := by
  obtain ⟨mn, mx, inc, cur⟩ := a
  simp only [AttestFees.minFee, AttestFees.maxFee, AttestFees.feeIncrement,
    AttestFees.currentFee] at hmm hmin0 hlo hhi
  refine ⟨fun hu => by simp [ResetFee, hu], ?_, ?_, ?_⟩
  · simp only [ResetFee, getBestFee, Option.getD, List.head?]
    split_ifs <;> simp_all [AttestFees.mk.injEq] <;> omega
  · simp only [ResetFee, getBestFee, Option.getD, List.head?]
    split_ifs <;> simp_all [AttestFees.mk.injEq] <;> omega
  · have hw : wrap64 (cur + inc) = cur + inc := wrap64_eq_self hlo hhi
    simp only [BumpFee, hw]
    split_ifs <;> simp_all [AttestFees.mk.injEq] <;> omega

/-- Witness for C4 at the fee state `(5, 80, 5, 10)` with oracle fee 3. -/
theorem C4_witness :
    ResetFee { minFee := 5, maxFee := 80, feeIncrement := 5, currentFee := 10 }
        [] (some 3) =
      { minFee := 5, maxFee := 80, feeIncrement := 5,
        currentFee := max 5 (min 3 80) } :=
  (C4_resetFee_bumpFee
    { minFee := 5, maxFee := 80, feeIncrement := 5, currentFee := 10 }
    [] (some 3) 3 (by decide) (by decide) (by decide) (by decide)).2.1

/-- C5 counterexample: the configuration `(10, 100, 2^63 - 1)` passes the
construction-time validation (`feeIncrement > 0`), yet a single `BumpFee`
wraps the 64-bit addition and drives `currentFee` below `minFee`. -/
theorem C5_counterexample :
    (([FeeOp.bump].foldl applyFeeOp
        (NewAttestFees none
          { minFee := 10, maxFee := 100,
            feeIncrement := 2 ^ 63 - 1 })).currentFee <
      ([FeeOp.bump].foldl applyFeeOp
        (NewAttestFees none
          { minFee := 10, maxFee := 100,
            feeIncrement := 2 ^ 63 - 1 })).minFee) := by
  decide

/-- C5 (amended): after `NewAttestFees` with any fees configuration whose
`feeIncrement` is below `2^63 - 100` (so fee bumping cannot overflow the
64-bit integer; each invalid value falls back per-field to the defaults 10,
100, 5), and after every subsequent sequence of `ResetFee` and `BumpFee`
calls, the state satisfies `minFee ≤ currentFee ≤ maxFee` and
`minFee < maxFee`. -/
theorem C5_fee_invariant (cfg : FeesConfig) (oracle : Option Int)
    (ops : List FeeOp) (hinc : cfg.feeIncrement < 2 ^ 63 - 100) :
    ((ops.foldl applyFeeOp (NewAttestFees oracle cfg)).minFee ≤
        (ops.foldl applyFeeOp (NewAttestFees oracle cfg)).currentFee ∧
      (ops.foldl applyFeeOp (NewAttestFees oracle cfg)).currentFee ≤
        (ops.foldl applyFeeOp (NewAttestFees oracle cfg)).maxFee ∧
      (ops.foldl applyFeeOp (NewAttestFees oracle cfg)).minFee <
        (ops.foldl applyFeeOp (NewAttestFees oracle cfg)).maxFee)
    ∧ (¬(cfg.minFee > 0 ∧ cfg.minFee < 100) →
        (NewAttestFees oracle cfg).minFee = 10)
    ∧ (¬(cfg.maxFee > 0 ∧ cfg.maxFee > (NewAttestFees oracle cfg).minFee ∧
          cfg.maxFee < 100) →
        (NewAttestFees oracle cfg).maxFee = 100)
    ∧ (¬(cfg.feeIncrement > 0) →
        (NewAttestFees oracle cfg).feeIncrement = 5) := by
  have hg := foldl_feesGood ops _ (newAttestFees_feesGood oracle cfg hinc)
  refine ⟨⟨hg.2.2.2.1, hg.2.2.2.2.1, hg.2.1⟩, ?_, ?_, ?_⟩ <;>
    · intro hbad
      simp only [NewAttestFees, ResetFee, DefaultMinFee, DefaultMaxFee,
        DefaultFeeIncrement] at hbad ⊢
      split_ifs at hbad ⊢ <;> simp_all <;> omega

/-! ## Transaction model (`wire.MsgTx`, btcjson results) -/

/-- A bitcoin address, kept as its string form (the embedding never inspects
its internal encoding). -/
abbrev Address := String

/-- `wire.OutPoint`: reference to a previous transaction output. -/
structure OutPoint where
  hash : Hash
  index : Nat
deriving Repr, DecidableEq

/-- `wire.TxIn`. -/
structure TxIn where
  previousOutPoint : OutPoint
  signatureScript : List Nat
  sequence : Nat
deriving Repr, DecidableEq

/-- `wire.TxOut`; the output script is represented by the address it pays to
(the external RPC performs the address-to-script encoding). -/
structure TxOut where
  value : Int
  address : Address
deriving Repr, DecidableEq

/-- `wire.MsgTx`. -/
structure MsgTx where
  txIn : List TxIn
  txOut : List TxOut
deriving Repr, DecidableEq

/-- `btcjson.ListUnspentResult`: the txid/vout pair and the amount.  The Go
field `Amount` is a float64 denominated in BTC which `createAttestation`
converts with `btcutil.Amount(txunspent.Amount * 100000000)`; the embedding
carries that resulting satoshi value directly. -/
structure ListUnspentResult where
  txid : Hash
  vout : Nat
  amountSat : Int
deriving Repr, DecidableEq

/-- The zero value `btcjson.ListUnspentResult{}`. -/
def emptyUnspent : ListUnspentResult :=
  { txid := zeroHash, vout := 0, amountSat := 0 }

/-- Modelled from the spec: the parent-chain RPC `CreateRawTransaction`
(an external collaborator, out of scope) builds an unsigned transaction with
one input per requested outpoint (empty signature script and the default
maximum sequence number) and one output per requested address/amount pair. -/
def CreateRawTransaction (inputs : List OutPoint)
    (amounts : List (Address × Int)) : MsgTx :=
  { txIn := inputs.map fun op =>
      { previousOutPoint := op, signatureScript := [], sequence := 4294967295 },
    txOut := amounts.map fun av => { value := av.2, address := av.1 } }

/-- The first half of `createAttestation` (attestclient.go): the raw
one-in/one-out transaction for the full unspent amount, with the input
sequence overwritten by `uint32(math.Pow(2, 32)) - 3` (the float conversion
truncates to 0 and the unsigned subtraction wraps to `0xFFFFFFFD`). -/
def createAttestationRaw (paytoaddr : Address)
    (txunspent : ListUnspentResult) : MsgTx :=
  let msgtx := CreateRawTransaction [⟨txunspent.txid, txunspent.vout⟩]
    [(paytoaddr, txunspent.amountSat)]
  { msgtx with
    txIn := msgtx.txIn.modifyHead fun i =>
      { i with sequence := u32sub (f64ToU32 (2 ^ 32)) 3 } }

/-- `createAttestation` (attestclient.go): build the raw transaction, then
subtract `fee = feePerByte * SerializeSize` from the single output.
Byte serialization of transactions lives in the external wire package, so
the serialized size is the oracle `ssize`. -/
def createAttestation (ssize : MsgTx → Nat) (fees : AttestFees)
    (paytoaddr : Address) (txunspent : ListUnspentResult) : MsgTx :=
  let msgtx := createAttestationRaw paytoaddr txunspent
  let feePerByte := fees.currentFee
  let fee := wrap64 (feePerByte * (ssize msgtx : Int))
  { msgtx with
    txOut := msgtx.txOut.modifyHead fun o =>
      { o with value := wrap64 (o.value - fee) } }

/-- `bumpAttestationFees` (attestclient.go): clear the input signature
script, bump the fee controller once, and subtract the incremental fee
(fee-per-byte difference times serialized size) from the single output. -/
def bumpAttestationFees (ssize : MsgTx → Nat) (fees : AttestFees)
    (msgtx : MsgTx) : AttestFees × MsgTx :=
  let msgtx1 :=
    { msgtx with
      txIn := msgtx.txIn.modifyHead fun i => { i with signatureScript := [] } }
  let prevFeePerByte := fees.currentFee
  let fees1 := BumpFee fees
  let feePerByteIncrement := wrap64 (fees1.currentFee - prevFeePerByte)
  let feeIncrement := wrap64 (feePerByteIncrement * (ssize msgtx1 : Int))
  (fees1,
    { msgtx1 with
      txOut := msgtx1.txOut.modifyHead fun o =>
        { o with value := wrap64 (o.value - feeIncrement) } })

theorem createAttestationRaw_eq (paytoaddr : Address)
    (txunspent : ListUnspentResult) :
    createAttestationRaw paytoaddr txunspent =
      { txIn := [{ previousOutPoint := ⟨txunspent.txid, txunspent.vout⟩,
                   signatureScript := [], sequence := 4294967293 }],
        txOut := [{ value := txunspent.amountSat, address := paytoaddr }] } :=
  rfl

/-- C2: `createAttestation` builds a transaction with exactly one input (the
current unspent), one output paying the full unspent amount minus
`fee = feePerByte * serializedSize`, and the input sequence `0xFFFFFFFD`
(RBF enabled).  `n` names the serialized size the source observes; the range
hypotheses state that the fee and the resulting output value fit in the
64-bit integers the source computes with. -/
theorem C2_createAttestation (ssize : MsgTx → Nat) (fees : AttestFees)
    (paytoaddr : Address) (txunspent : ListUnspentResult) (n : Nat)
    (hn : ssize (createAttestationRaw paytoaddr txunspent) = n)
    (hf1 : -2 ^ 63 ≤ fees.currentFee * (n : Int))
    (hf2 : fees.currentFee * (n : Int) < 2 ^ 63)
    (hv1 : -2 ^ 63 ≤ txunspent.amountSat - fees.currentFee * (n : Int))
    (hv2 : txunspent.amountSat - fees.currentFee * (n : Int) < 2 ^ 63) :
    createAttestation ssize fees paytoaddr txunspent =
      { txIn := [{ previousOutPoint := ⟨txunspent.txid, txunspent.vout⟩,
                   signatureScript := [], sequence := 4294967293 }],
        txOut := [{ value := txunspent.amountSat -
                      fees.currentFee * (n : Int),
                    address := paytoaddr }] } := by
  have hfee : wrap64 (fees.currentFee * (n : Int)) =
      fees.currentFee * (n : Int) := wrap64_eq_self hf1 hf2
  have hval : wrap64 (txunspent.amountSat - fees.currentFee * (n : Int)) =
      txunspent.amountSat - fees.currentFee * (n : Int) :=
    wrap64_eq_self hv1 hv2
  dsimp only [createAttestation]
  rw [hn, hfee, createAttestationRaw_eq]
  dsimp only [List.modifyHead]
  rw [hval]

/-- Witness for C2: a 250-byte transaction spending a 600000-satoshi unspent
at 20 satoshis per byte pays 595000 satoshis to the derived address. -/
theorem C2_witness :
    createAttestation (fun _ => 250)
        { minFee := 10, maxFee := 100, feeIncrement := 5, currentFee := 20 }
        "addr" { txid := ⟨[1]⟩, vout := 0, amountSat := 600000 } =
      { txIn := [{ previousOutPoint := ⟨⟨[1]⟩, 0⟩, signatureScript := [],
                   sequence := 4294967293 }],
        txOut := [{ value := 600000 - 20 * 250, address := "addr" }] } :=
  C2_createAttestation (fun _ => 250)
    { minFee := 10, maxFee := 100, feeIncrement := 5, currentFee := 20 }
    "addr" { txid := ⟨[1]⟩, vout := 0, amountSat := 600000 } 250
    rfl (by decide) (by decide) (by decide) (by decide)

/-- C6: `bumpAttestationFees` clears the input signature script, bumps the
fee controller once, and decreases the single output value by exactly
`(newFeePerByte - oldFeePerByte) * serializedSize`, leaving the input's
previous outpoint and sequence unchanged.  `n` names the serialized size of
the signature-cleared transaction; the range hypotheses state that the
intermediate 64-bit computations do not overflow. -/
theorem C6_bumpAttestationFees (ssize : MsgTx → Nat) (fees : AttestFees)
    (msgtx : MsgTx) (txin : TxIn) (txout : TxOut) (n : Nat)
    (hin : msgtx.txIn = [txin]) (hout : msgtx.txOut = [txout])
    (hn : ssize { txIn := [{ txin with signatureScript := [] }],
                  txOut := [txout] } = n)
    (hd1 : -2 ^ 63 ≤ (BumpFee fees).currentFee - fees.currentFee)
    (hd2 : (BumpFee fees).currentFee - fees.currentFee < 2 ^ 63)
    (hp1 : -2 ^ 63 ≤ ((BumpFee fees).currentFee - fees.currentFee) * (n : Int))
    (hp2 : ((BumpFee fees).currentFee - fees.currentFee) * (n : Int) < 2 ^ 63)
    (hv1 : -2 ^ 63 ≤ txout.value -
        ((BumpFee fees).currentFee - fees.currentFee) * (n : Int))
    (hv2 : txout.value -
        ((BumpFee fees).currentFee - fees.currentFee) * (n : Int) < 2 ^ 63) :
    bumpAttestationFees ssize fees msgtx =
      (BumpFee fees,
        { txIn := [{ txin with signatureScript := [] }],
          txOut := [{ txout with
            value := txout.value -
              ((BumpFee fees).currentFee - fees.currentFee) * (n : Int) }] }) := by
  have hd : wrap64 ((BumpFee fees).currentFee - fees.currentFee) =
      (BumpFee fees).currentFee - fees.currentFee := wrap64_eq_self hd1 hd2
  have hp : wrap64 (((BumpFee fees).currentFee - fees.currentFee) * (n : Int)) =
      ((BumpFee fees).currentFee - fees.currentFee) * (n : Int) :=
    wrap64_eq_self hp1 hp2
  have hv : wrap64 (txout.value -
        ((BumpFee fees).currentFee - fees.currentFee) * (n : Int)) =
      txout.value - ((BumpFee fees).currentFee - fees.currentFee) * (n : Int) :=
    wrap64_eq_self hv1 hv2
  dsimp only [bumpAttestationFees]
  rw [hin, hout]
  dsimp only [List.modifyHead]
  rw [hd, hn, hp]
  rw [hv]

/-- Witness for C6: bumping a 250-byte transaction from 20 to 25 satoshis
per byte lowers the output by 1250 satoshis and clears the scriptSig. -/
theorem C6_witness :
    bumpAttestationFees (fun _ => 250)
        { minFee := 10, maxFee := 100, feeIncrement := 5, currentFee := 20 }
        { txIn := [{ previousOutPoint := ⟨⟨[2]⟩, 0⟩, signatureScript := [7, 7],
                     sequence := 4294967293 }],
          txOut := [{ value := 595000, address := "addr" }] } =
      (BumpFee
        { minFee := 10, maxFee := 100, feeIncrement := 5, currentFee := 20 },
        { txIn := [{ previousOutPoint := ⟨⟨[2]⟩, 0⟩, signatureScript := [],
                     sequence := 4294967293 }],
          txOut := [{ value := 595000 - ((BumpFee { minFee := 10, maxFee := 100, feeIncrement := 5, currentFee := 20 }).currentFee - 20) * 250, address := "addr" }] }) :=
  C6_bumpAttestationFees (fun _ => 250)
    { minFee := 10, maxFee := 100, feeIncrement := 5, currentFee := 20 }
    { txIn := [{ previousOutPoint := ⟨⟨[2]⟩, 0⟩, signatureScript := [7, 7],
                 sequence := 4294967293 }],
      txOut := [{ value := 595000, address := "addr" }] }
    { previousOutPoint := ⟨⟨[2]⟩, 0⟩, signatureScript := [7, 7],
      sequence := 4294967293 }
    { value := 595000, address := "addr" } 250
    rfl rfl rfl (by decide) (by decide) (by decide) (by decide) (by decide)
    (by decide)

/-- Witness for C5 at the configuration `(5, 80, 5)` with a failing oracle
and the operation sequence reset-to-minimum then two bumps. -/
theorem C5_witness :
    (([FeeOp.reset [true] none, FeeOp.bump, FeeOp.bump].foldl applyFeeOp
        (NewAttestFees none
          { minFee := 5, maxFee := 80, feeIncrement := 5 })).minFee ≤
      ([FeeOp.reset [true] none, FeeOp.bump, FeeOp.bump].foldl applyFeeOp
        (NewAttestFees none
          { minFee := 5, maxFee := 80, feeIncrement := 5 })).currentFee) :=
  (C5_fee_invariant { minFee := 5, maxFee := 80, feeIncrement := 5 } none
    [FeeOp.reset [true] none, FeeOp.bump, FeeOp.bump] (by decide)).1.1

/-! ## Record-store server (`server.go`) -/

/-- `models.MerkleCommitment`: one stored client commitment row (the
attestation merkle root column is not consulted by the embedded paths). -/
structure MerkleCommitment where
  clientPosition : Nat
  commitment : Hash
deriving Repr, DecidableEq

/-- Error string of `models.NewCommitment` on an empty list. -/
def ErrorCommitmentListEmpty : String := "List of commitments is empty"

/-- Modelled from the spec: `models.Commitment` (the models package code is
absent from src/, only its tests are present).  A commitment is immutable
once constructed and stores the ordered positional leaf hashes; the merkle
tree derived from them is not needed by the embedded claims. -/
structure Commitment where
  commitments : List Hash
deriving Repr, DecidableEq

/-- Modelled from the spec: `models.NewCommitment` fails with
`ErrorCommitmentListEmpty` on an empty leaf list (scenario S2) and otherwise
constructs the commitment from the given leaves. -/
def NewCommitment (commitments : List Hash) : Except String Commitment :=
  if commitments.isEmpty then .error ErrorCommitmentListEmpty
  else .ok { commitments := commitments }

/-- The leaf-list construction inside `Server.GetClientCommitment`
(server.go): when the stored list is non-empty, allocate
`last.clientPosition + 1` zero hashes and write each stored commitment at
its client position (the Go write panics out of range; under the documented
ascending order every position is in range, where `List.set` agrees). -/
def buildCommitmentHashes (latestCommitments : List MerkleCommitment) :
    List Hash :=
  match latestCommitments.getLast? with
  | none => []
  | some last =>
    latestCommitments.foldl (fun acc c => acc.set c.clientPosition c.commitment)
      (List.replicate (last.clientPosition + 1) zeroHash)

/-- `Server.GetClientCommitment` (server.go): fetch the stored client
commitments (ordered ascending by client position), build the dense leaf
list and construct the `Commitment` from it. -/
def GetClientCommitment
    (dbClientCommitments : Except String (List MerkleCommitment)) :
    Except String Commitment :=
  match dbClientCommitments with
  | .error e => .error e
  | .ok latestCommitments =>
    match NewCommitment (buildCommitmentHashes latestCommitments) with
    | .error e => .error e
    | .ok commitment => .ok commitment

/-- `Server.GetLatestAttestationCommitmentHash` (server.go): read the latest
attestation merkle root for the given confirmed flag (`true` by default),
return the zero hash for the empty string (no attestations yet) and
otherwise parse the root with `chainhash.NewHashFromStr` (external,
abstracted as `newHashFromStr`). -/
def GetLatestAttestationCommitmentHash
    (getLatestAttestationMerkleRoot : Bool → Except String String)
    (newHashFromStr : String → Except String Hash)
    (confirmed : List Bool) : Except String Hash :=
  let confirmedParam := confirmed.headD true
  match getLatestAttestationMerkleRoot confirmedParam with
  | .error rootErr => .error rootErr
  | .ok merkleRoot =>
    if merkleRoot = "" then .ok zeroHash
    else newHashFromStr merkleRoot

theorem foldl_set_length (cs : List MerkleCommitment) (init : List Hash) :
    (cs.foldl (fun acc c => acc.set c.clientPosition c.commitment)
      init).length = init.length := by
  induction cs generalizing init with
  | nil => rfl
  | cons c rest ih =>
    rw [List.foldl_cons, ih, List.length_set]

theorem foldl_set_getElem_ne (cs : List MerkleCommitment) (init : List Hash)
    (i : Nat) (h : ∀ c ∈ cs, c.clientPosition ≠ i) :
    (cs.foldl (fun acc c => acc.set c.clientPosition c.commitment)
      init)[i]? = init[i]? := by
  induction cs generalizing init with
  | nil => rfl
  | cons c rest ih =>
    rw [List.foldl_cons, ih _ (fun x hx => h x (by simp [hx]))]
    exact List.getElem?_set_ne (h c (by simp))

theorem foldl_set_getElem_hit (l1 l2 : List MerkleCommitment)
    (c : MerkleCommitment) (init : List Hash)
    (hafter : ∀ x ∈ l2, x.clientPosition ≠ c.clientPosition)
    (hlt : c.clientPosition < init.length) :
    ((l1 ++ c :: l2).foldl (fun acc x => acc.set x.clientPosition x.commitment)
      init)[c.clientPosition]? = some c.commitment := by
  rw [List.foldl_append, List.foldl_cons]
  rw [foldl_set_getElem_ne l2 _ _ hafter]
  have hlen : c.clientPosition <
      (l1.foldl (fun acc x => acc.set x.clientPosition x.commitment)
        init).length := by
    rw [foldl_set_length]; exact hlt
  exact List.getElem?_set_self hlen

theorem sorted_pos_le_getLast (cs : List MerkleCommitment)
    (hs : cs.Pairwise (fun a b => a.clientPosition < b.clientPosition))
    (hne : cs ≠ []) :
    ∀ c ∈ cs, c.clientPosition ≤ (cs.getLast hne).clientPosition := by
  induction cs with
  | nil => exact absurd rfl hne
  | cons a rest ih =>
    intro c hc
    cases rest with
    | nil =>
      rw [List.mem_singleton] at hc
      subst hc
      exact le_refl _
    | cons b rest2 =>
      have hne2 : b :: rest2 ≠ [] := List.cons_ne_nil b rest2
      rw [List.getLast_cons hne2]
      obtain ⟨hlt, hs2⟩ := List.pairwise_cons.mp hs
      rcases List.mem_cons.mp hc with hca | hcr
      · subst hca
        exact le_of_lt (hlt _ (List.getLast_mem hne2))
      · exact ih hs2 hne2 c hcr

/-- C7: for every non-empty list of stored client commitments ordered
(strictly) ascending by client position, `GetClientCommitment` builds a leaf
list of length highest-client-position + 1 in which the leaf at each reported
position is that position's stored hash and every other position carries the
zero hash, and constructs the `Commitment` from that list. -/
theorem C7_getClientCommitment (cs : List MerkleCommitment) (hne : cs ≠ [])
    (hsort : cs.Pairwise fun a b => a.clientPosition < b.clientPosition) :
    GetClientCommitment (.ok cs) =
      .ok { commitments := buildCommitmentHashes cs }
    ∧ (buildCommitmentHashes cs).length = (cs.getLast hne).clientPosition + 1
    ∧ (∀ c ∈ cs,
        (buildCommitmentHashes cs)[c.clientPosition]? = some c.commitment)
    ∧ (∀ i < (cs.getLast hne).clientPosition + 1,
        (∀ c ∈ cs, c.clientPosition ≠ i) →
        (buildCommitmentHashes cs)[i]? = some zeroHash) := by
  have hbuild : buildCommitmentHashes cs =
      cs.foldl (fun acc c => acc.set c.clientPosition c.commitment)
        (List.replicate ((cs.getLast hne).clientPosition + 1) zeroHash) := by
    unfold buildCommitmentHashes
    rw [List.getLast?_eq_getLast cs hne]
  have hlen : (buildCommitmentHashes cs).length =
      (cs.getLast hne).clientPosition + 1 := by
    rw [hbuild, foldl_set_length, List.length_replicate]
  refine ⟨?_, hlen, ?_, ?_⟩
  · have hnonempty : ¬(buildCommitmentHashes cs).isEmpty = true := by
      rw [List.isEmpty_iff]
      intro habs
      rw [habs] at hlen
      exact Nat.succ_ne_zero _ hlen.symm
    unfold GetClientCommitment NewCommitment
    dsimp only []
    rw [if_neg hnonempty]
  · intro c hc
    obtain ⟨l1, l2, rfl⟩ := List.append_of_mem hc
    have hafter : ∀ x ∈ l2, x.clientPosition ≠ c.clientPosition := by
      intro x hx
      have := ((List.pairwise_append.mp hsort).2.1)
      exact (Nat.ne_of_gt ((List.pairwise_cons.mp this).1 x hx))
    have hlt : c.clientPosition <
        ((l1 ++ c :: l2).getLast hne).clientPosition + 1 :=
      Nat.lt_succ_of_le (sorted_pos_le_getLast _ hsort hne c hc)
    rw [hbuild]
    exact foldl_set_getElem_hit l1 l2 c _ hafter
      (by rw [List.length_replicate]; exact hlt)
  · intro i hi hnone
    rw [hbuild, foldl_set_getElem_ne _ _ _ hnone, List.getElem?_replicate,
      if_pos hi]

/-- Witness for C7 at the stored rows `[(0, h1), (2, h2)]`: the leaf list has
length 3 with the zero hash at the unreported position 1. -/
theorem C7_witness :
    GetClientCommitment (.ok [⟨0, ⟨[1]⟩⟩, ⟨2, ⟨[2]⟩⟩]) =
      .ok { commitments :=
        buildCommitmentHashes [⟨0, ⟨[1]⟩⟩, ⟨2, ⟨[2]⟩⟩] } ∧
    (buildCommitmentHashes [⟨0, ⟨[1]⟩⟩, ⟨2, ⟨[2]⟩⟩])[1]? = some zeroHash :=
  ⟨(C7_getClientCommitment [⟨0, ⟨[1]⟩⟩, ⟨2, ⟨[2]⟩⟩] (by decide)
      (by simp)).1,
    (C7_getClientCommitment [⟨0, ⟨[1]⟩⟩, ⟨2, ⟨[2]⟩⟩] (by decide)
      (by simp)).2.2.2 1 (by decide) (by decide)⟩

/-- C10: for every value of the optional confirmed flag, when the record
store holds no attestation yet (it reports an empty merkle-root string),
`GetLatestAttestationCommitmentHash` returns the zero hash with no error. -/
theorem C10_latest_commitment_empty
    (getLatestAttestationMerkleRoot : Bool → Except String String)
    (newHashFromStr : String → Except String Hash)
    (confirmed : List Bool)
    (hdb : ∀ b, getLatestAttestationMerkleRoot b = .ok "") :
    GetLatestAttestationCommitmentHash getLatestAttestationMerkleRoot
      newHashFromStr confirmed = .ok zeroHash := by
  unfold GetLatestAttestationCommitmentHash
  simp only [hdb]
  rfl

/-- Witness for C10 with an empty store, a parser that always fails, and an
explicit `confirmed = false` flag. -/
theorem C10_witness :
    GetLatestAttestationCommitmentHash (fun _ => .ok "")
      (fun s => .error s) [false] = .ok zeroHash :=
  C10_latest_commitment_empty (fun _ => .ok "") (fun s => .error s) [false]
    (fun _ => rfl)

/-! ## Attest client key/script derivation (`attestclient.go`) -/

/-- The operations of the crypto package (absent from src/), abstracted over
the private-key type `K` and public-key type `P`.  Redeem scripts are carried
as their byte lists; the Go code passes them as hex strings, and hex
encoding is a bijection on valid scripts.  `tweakPrivKey` returns `none` on
failure (zero result); `getAddressFromPrivKey` takes the possibly-nil wallet
key pointer. -/
structure CryptoOps (K P : Type) where
  tweakPrivKey : K → List Nat → Option K
  tweakPubKey : P → List Nat → P
  createMultisig : List P → Nat → Address × List Nat
  getAddressFromPrivKey : Option K → Address

/-- `AttestClient` (attestclient.go): initial txid and redeem script, the
pubkeys parsed from the initial script, the required number of sigs, and the
optional wallet private key (present only in the signer case). -/
structure AttestClient (K P : Type) where
  txid0 : Hash
  script0 : List Nat
  pubkeys : List P
  numOfSigs : Nat
  walletPriv : Option K

/-- `GetNextAttestationAddr` (attestclient.go): in the multisig case tweak
every initial pubkey by the commitment hash and rebuild the P2SH multisig;
in the single-key case derive the address from the provided private key and
return an empty redeem script. -/
def GetNextAttestationAddr {K P : Type} (ops : CryptoOps K P)
    (w : AttestClient K P) (key : Option K) (hash : Hash) :
    Address × List Nat :=
  if w.pubkeys.length > 0 then
    let tweakedPubs := w.pubkeys.map fun pub => ops.tweakPubKey pub hash.bytes
    ops.createMultisig tweakedPubs w.numOfSigs
  else
    (ops.getAddressFromPrivKey key, [])

/-- `GetKeyFromHash` (attestclient.go): for a non-zero hash tweak the wallet
private key by it, for the zero hash return the wallet key unchanged.  The
source ignores the tweak error and dereferences the result, and
dereferences a nil `WalletPriv` in the non-signer case; both panics are
modelled as `none`. -/
def GetKeyFromHash {K P : Type} (ops : CryptoOps K P) (w : AttestClient K P)
    (hash : Hash) : Option K :=
  if ¬hash = zeroHash then
    match w.walletPriv with
    | some k => ops.tweakPrivKey k hash.bytes
    | none => none
  else w.walletPriv

/-- `GetScriptFromHash` (attestclient.go): for a non-zero hash the redeem
script of the tweaked derivation, for the zero hash the initial script. -/
def GetScriptFromHash {K P : Type} (ops : CryptoOps K P)
    (w : AttestClient K P) (hash : Hash) : List Nat :=
  if ¬hash = zeroHash then
    (GetNextAttestationAddr ops w w.walletPriv hash).2
  else w.script0

/-- C8: `GetKeyFromHash` and `GetScriptFromHash` return the untweaked
genesis private key and the initial redeem script for the zero commitment
hash, and for every non-zero hash the key and redeem script obtained by
tweaking the genesis key and pubkeys with that hash (signer with a multisig
initial script). -/
theorem C8_key_script_from_hash {K P : Type} (ops : CryptoOps K P)
    (w : AttestClient K P) (hash : Hash) (k : K)
    (hk : w.walletPriv = some k) (hp : 0 < w.pubkeys.length) :
    (GetKeyFromHash ops w zeroHash = some k
      ∧ GetScriptFromHash ops w zeroHash = w.script0)
    ∧ (hash ≠ zeroHash →
        GetKeyFromHash ops w hash = ops.tweakPrivKey k hash.bytes
        ∧ GetScriptFromHash ops w hash =
            (ops.createMultisig
              (w.pubkeys.map fun pub => ops.tweakPubKey pub hash.bytes)
              w.numOfSigs).2) := by
  refine ⟨⟨?_, ?_⟩, fun hnz => ⟨?_, ?_⟩⟩
  · simp [GetKeyFromHash, hk]
  · simp [GetScriptFromHash]
  · simp [GetKeyFromHash, hk, hnz]
  · simp [GetScriptFromHash, GetNextAttestationAddr, hnz, hp]

/-- Concrete crypto operations used to witness C8: keys and pubkeys are
scalars, tweaking adds the byte sum, the multisig script is the threshold
followed by the pubkeys. -/
def opsW : CryptoOps Nat Nat :=
  { tweakPrivKey := fun k t => some (k + t.sum),
    tweakPubKey := fun p t => p + t.sum,
    createMultisig := fun pubs m => ("3MultisigAddr", m :: pubs),
    getAddressFromPrivKey := fun _ => "1P2PKHAddr" }

/-- Concrete attest client used to witness C8: a 2-of-2 signer. -/
def clientW : AttestClient Nat Nat :=
  { txid0 := ⟨[3]⟩, script0 := [2, 5, 7], pubkeys := [5, 7], numOfSigs := 2,
    walletPriv := some 3 }

/-- Witness for C8: the zero hash yields the genesis key and script, the
hash with byte list `[1]` yields the tweaked key and rebuilt script. -/
theorem C8_witness :
    (GetKeyFromHash opsW clientW zeroHash = some 3
      ∧ GetScriptFromHash opsW clientW zeroHash = [2, 5, 7])
    ∧ (GetKeyFromHash opsW clientW ⟨[1]⟩ = some 4
      ∧ GetScriptFromHash opsW clientW ⟨[1]⟩ = [2, 6, 8]) := by
  obtain ⟨h1, h2⟩ := C8_key_script_from_hash opsW clientW ⟨[1]⟩ 3 rfl
    (by decide)
  obtain ⟨h3, h4⟩ := h2 (by decide)
  exact ⟨h1, by rw [h3]; rfl, by rw [h4]; rfl⟩

/-! ## Signature assembly (`signAttestation`, attestclient.go) -/

/-- The script-sig operations of the crypto package (absent from src/):
`parseScriptSig` splits a signature script into its DER signatures and the
trailing redeem script, `createScriptSig` serializes signatures and redeem
script back into a script. -/
structure ScriptOps where
  parseScriptSig : List Nat → List (List Nat) × List Nat
  createScriptSig : List (List Nat) → List Nat → List Nat

/-- The wallet-signing collaborators of `SignTransaction`: the previous
transaction fetch and the `SignRawTransaction3` RPC (both external). -/
structure SignEnv (K : Type) where
  getRawTransaction : Hash → Option MsgTx
  signRawTransaction3 : MsgTx → MsgTx → List Nat → K → Option MsgTx

/-- Replace the signature script of the first input
(`msgtx.TxIn[0].SignatureScript = ...`). -/
def setSignatureScript (msgtx : MsgTx) (ss : List Nat) : MsgTx :=
  { msgtx with
    txIn := msgtx.txIn.modifyHead fun i => { i with signatureScript := ss } }

/-- `SignTransaction` (attestclient.go): derive key and redeem script from
the commitment hash, fetch the previous transaction and produce the
wallet-signed transaction; any RPC failure (or panic on missing data) is
`none`. -/
def SignTransaction {K P : Type} (ops : CryptoOps K P) (env : SignEnv K)
    (w : AttestClient K P) (hash : Hash) (msgTx : MsgTx) :
    Option (MsgTx × List Nat) := do
  let key ← GetKeyFromHash ops w hash
  let redeemScript := GetScriptFromHash ops w hash
  let txin ← msgTx.txIn.head?
  let prevTx ← env.getRawTransaction txin.previousOutPoint.hash
  let signedMsgTx ← env.signRawTransaction3 msgTx prevTx redeemScript key
  pure (signedMsgTx, redeemScript)

/-- The signature-combination phase of `signAttestation` (attestclient.go).
When the parsed local signatures match the expected redeem script the code
takes `combinedSigs[:numOfSigs]` unconditionally; Go slicing beyond the
length panics (or, below capacity, exposes undefined junk entries), which is
modelled as `none`.  Without usable local signatures the peer signatures are
used alone, guarded by the `len(sigs) >= numOfSigs` check, and with too few
peer signatures the transaction is returned untouched. -/
def combineSigs (sops : ScriptOps) (numOfSigs : Nat) (signedMsgTx : MsgTx)
    (redeemScript : List Nat) (sigs : List (List Nat)) : Option MsgTx :=
  if redeemScript ≠ [] then
    match signedMsgTx.txIn.head? with
    | none => none
    | some txin =>
      let parsed := sops.parseScriptSig txin.signatureScript
      let mySigs := parsed.1
      let script := parsed.2
      if mySigs ≠ [] ∧ script ≠ [] ∧ script = redeemScript then
        let combinedSigs := mySigs ++ sigs
        if numOfSigs ≤ combinedSigs.length then
          some (setSignatureScript signedMsgTx
            (sops.createScriptSig (combinedSigs.take numOfSigs) script))
        else none
      else
        if sigs.length ≥ numOfSigs then
          some (setSignatureScript signedMsgTx
            (sops.createScriptSig (sigs.take numOfSigs) redeemScript))
        else some signedMsgTx
  else some signedMsgTx

/-- `signAttestation` (attestclient.go): in the signer case first sign the
transaction through the wallet RPC (propagating its error), then combine the
parsed local signatures with the received peer signatures. -/
def signAttestation {K P : Type} (sops : ScriptOps) (ops : CryptoOps K P)
    (env : SignEnv K) (w : AttestClient K P) (msgtx : MsgTx)
    (sigs : List (List Nat)) (hash : Hash) : Option MsgTx :=
  match w.walletPriv with
  | some _ =>
    match SignTransaction ops env w hash msgtx with
    | none => none
    | some (signedMsgTx, redeemScript) =>
      combineSigs sops w.numOfSigs signedMsgTx redeemScript sigs
  | none =>
    combineSigs sops w.numOfSigs msgtx (GetScriptFromHash ops w hash) sigs

/-- Modelled from the spec: `crypto.CreateScriptSig` (crypto package absent
from src/) — the leading OP_0, then each DER signature and finally the
redeem script, with pushes modelled as length-prefixed chunks. -/
def specCreateScriptSig (sigs : List (List Nat)) (script : List Nat) :
    List Nat :=
  0 :: SerializeBytes (sigs ++ [script])

/-- Modelled from the spec: `crypto.ParseScriptSig` — consume the leading
OP_0 and return the DER signatures and the trailing redeem script. -/
def specParseScriptSig : List Nat → List (List Nat) × List Nat
  | 0 :: rest =>
    let chunks := UnserializeBytes rest
    (chunks.dropLast, (chunks.getLast?).getD [])
  | _ => ([], [])

/-- The script operations assembled from the spec-modelled parse/create. -/
def sopsW : ScriptOps :=
  { parseScriptSig := specParseScriptSig,
    createScriptSig := specCreateScriptSig }

theorem specParse_create (sigs : List (List Nat)) (script : List Nat)
    (hs : ∀ c ∈ sigs, c.length ≤ 255) (hscript : script.length ≤ 255) :
    specParseScriptSig (specCreateScriptSig sigs script) = (sigs, script) := by
  unfold specCreateScriptSig specParseScriptSig
  dsimp only []
  rw [unserialize_serialize (sigs ++ [script]) ?hlens]
  case hlens =>
    intro c hc
    rcases List.mem_append.mp hc with h | h
    · exact hs c h
    · rw [List.mem_singleton.mp h]; exact hscript
  rw [List.dropLast_concat, List.getLast?_concat]
  rfl

/-- C1 (amended): in the multisig path, when the scriptSig of the
(possibly wallet-signed) transaction parses to local signatures matching the
expected redeem script, the peer signatures are appended after the local
ones and the scriptSig is rebuilt from the first `numOfSigs` of the combined
list — unconditionally, so at least `numOfSigs` combined signatures must be
available; when no local signatures parse, the peer signatures alone are
used, and with fewer than `numOfSigs` of them the partially signed
transaction is returned without error. -/
theorem C1_signAttestation_combine {K P : Type} (sops : ScriptOps)
    (ops : CryptoOps K P) (env : SignEnv K) (w : AttestClient K P)
    (msgtx : MsgTx) (sigs : List (List Nat)) (hash : Hash) (txin : TxIn)
    (mySigs : List (List Nat)) (script : List Nat)
    (hw : w.walletPriv = none)
    (hin : msgtx.txIn.head? = some txin)
    (hrs : GetScriptFromHash ops w hash ≠ [])
    (hp : sops.parseScriptSig txin.signatureScript = (mySigs, script)) :
    (mySigs ≠ [] → script ≠ [] → script = GetScriptFromHash ops w hash →
      w.numOfSigs ≤ mySigs.length + sigs.length →
      signAttestation sops ops env w msgtx sigs hash =
        some (setSignatureScript msgtx
          (sops.createScriptSig ((mySigs ++ sigs).take w.numOfSigs) script)))
    ∧ (mySigs = [] → w.numOfSigs ≤ sigs.length →
      signAttestation sops ops env w msgtx sigs hash =
        some (setSignatureScript msgtx
          (sops.createScriptSig (sigs.take w.numOfSigs)
            (GetScriptFromHash ops w hash))))
    ∧ (mySigs = [] → sigs.length < w.numOfSigs →
      signAttestation sops ops env w msgtx sigs hash = some msgtx) := by
  have hbase : signAttestation sops ops env w msgtx sigs hash =
      combineSigs sops w.numOfSigs msgtx (GetScriptFromHash ops w hash)
        sigs := by
    unfold signAttestation
    rw [hw]
  refine ⟨fun h1 h2 h3 h4 => ?_, fun h0 h5 => ?_, fun h0 h5 => ?_⟩
  · rw [hbase]
    unfold combineSigs
    rw [if_pos hrs, hin]
    dsimp only []
    rw [hp]
    dsimp only []
    rw [if_pos ⟨h1, h2, h3⟩,
      if_pos (by rw [List.length_append]; exact h4)]
  · rw [hbase]
    unfold combineSigs
    rw [if_pos hrs, hin]
    dsimp only []
    rw [hp]
    dsimp only []
    rw [if_neg (fun hc => hc.1 h0), if_pos h5]
  · rw [hbase]
    unfold combineSigs
    rw [if_pos hrs, hin]
    dsimp only []
    rw [hp]
    dsimp only []
    rw [if_neg (fun hc => hc.1 h0), if_neg (by omega)]

/-- Non-signer attest client used by the C1 witness: same multisig setup as
`clientW` but without a wallet private key. -/
def clientNoKeyW : AttestClient Nat Nat :=
  { txid0 := ⟨[3]⟩, script0 := [2, 5, 7], pubkeys := [5, 7], numOfSigs := 2,
    walletPriv := none }

/-- Inert signing environment for the non-signer path. -/
def envNoneW : SignEnv Nat :=
  { getRawTransaction := fun _ => none,
    signRawTransaction3 := fun _ _ _ _ => none }

/-- Partially signed transaction used by the C1 witness: its scriptSig
already carries one local signature for the tweaked redeem script. -/
def msgtxW : MsgTx :=
  { txIn := [{ previousOutPoint := ⟨⟨[3]⟩, 0⟩,
               signatureScript := specCreateScriptSig [[170]] [2, 6, 8],
               sequence := 4294967293 }],
    txOut := [{ value := 1, address := "a" }] }

/-- Witness for C1: one parsed local signature plus one peer signature meet
`numOfSigs = 2`, and the scriptSig is rebuilt from the combined list, local
signature first. -/
theorem C1_witness :
    signAttestation sopsW opsW envNoneW clientNoKeyW msgtxW [[187]] ⟨[1]⟩ =
      some (setSignatureScript msgtxW
        (sopsW.createScriptSig (([[170]] ++ [[187]]).take 2) [2, 6, 8])) :=
  (C1_signAttestation_combine sopsW opsW envNoneW clientNoKeyW msgtxW
      [[187]] ⟨[1]⟩
      { previousOutPoint := ⟨⟨[3]⟩, 0⟩,
        signatureScript := specCreateScriptSig [[170]] [2, 6, 8],
        sequence := 4294967293 }
      [[170]] [2, 6, 8] rfl rfl (by decide)
      (specParse_create [[170]] [2, 6, 8] (by decide) (by decide))).1
    (by decide) (by decide) (by decide) (by decide)

/-- Signing environment for the C1 counterexample: the wallet RPC signs the
transaction with a single local signature for the expected redeem script. -/
def envCex : SignEnv Nat :=
  { getRawTransaction := fun _ => some { txIn := [], txOut := [] },
    signRawTransaction3 := fun tx _ _ _ =>
      some (setSignatureScript tx (specCreateScriptSig [[170]] [2, 6, 8])) }

/-- Unsigned attestation transaction used by the C1 counterexample. -/
def msgtxCex : MsgTx :=
  { txIn := [{ previousOutPoint := ⟨⟨[3]⟩, 0⟩, signatureScript := [],
               sequence := 4294967293 }],
    txOut := [{ value := 1, address := "a" }] }

/-- C1 counterexample: a 2-of-2 signer whose wallet contributes one local
signature while no peer signatures arrived.  Only one signature is
available, yet `signAttestation` does not return the partially signed
transaction without error: the Go code unconditionally slices
`combinedSigs[:2]` past its length (a panic, or undefined junk below
capacity), modelled as `none`. -/
theorem C1_counterexample :
    signAttestation sopsW opsW envCex clientW msgtxCex [] ⟨[1]⟩ = none := by
  have hparse : specParseScriptSig (specCreateScriptSig [[170]] [2, 6, 8]) =
      ([[170]], [2, 6, 8]) :=
    specParse_create [[170]] [2, 6, 8] (by decide) (by decide)
  rw [show signAttestation sopsW opsW envCex clientW msgtxCex [] ⟨[1]⟩ =
      combineSigs sopsW 2
        (setSignatureScript msgtxCex (specCreateScriptSig [[170]] [2, 6, 8]))
        [2, 6, 8] [] from rfl]
  unfold combineSigs
  rw [if_pos (by decide : ([2, 6, 8] : List Nat) ≠ [])]
  rw [show (setSignatureScript msgtxCex
      (specCreateScriptSig [[170]] [2, 6, 8])).txIn.head? =
      some { previousOutPoint := ⟨⟨[3]⟩, 0⟩,
             signatureScript := specCreateScriptSig [[170]] [2, 6, 8],
             sequence := 4294967293 } from rfl]
  dsimp only [sopsW]
  rw [hparse]
  dsimp only []
  rw [if_pos ⟨by decide, by decide, rfl⟩]
  rw [if_neg (by decide)]

/-! ## Subchain walk (`verifyTxOnSubchain` / `findLastUnspent`,
attestclient.go) -/

/-- `verifyTxOnSubchain` (attestclient.go): a txid is on the subchain when
it is the genesis txid or when the previous outpoint of its transaction's
first input is, recursively; any fetch failure returns `false`.  The Go
recursion is unbounded, so the embedding takes an explicit recursion budget
`fuel`; every terminating run of the source is captured by a large enough
budget, and an exhausted budget returns `false` like a failed fetch.  The
source compares `txid.String() == w.txid0`; string conversion of hashes is
injective, so the embedding compares the hashes.  The Go `TxIn[0]` access
panics on an input-less transaction, modelled as `false` as well. -/
def verifyTxOnSubchain (getRawTransaction : Hash → Option MsgTx)
    (txid0 : Hash) : Nat → Hash → Bool
  | 0, txid => if txid = txid0 then true else false
  | fuel + 1, txid =>
    if txid = txid0 then true
    else
      match getRawTransaction txid with
      | none => false
      | some txraw =>
        match txraw.txIn.head? with
        | none => false
        | some txin =>
          verifyTxOnSubchain getRawTransaction txid0 fuel
            txin.previousOutPoint.hash

/-- One step of the walk the claim describes: replace the txid by the
previous-outpoint txid of its transaction's first input; `none` when the
fetch fails (or the transaction has no input). -/
def chainStep (getRawTransaction : Hash → Option MsgTx) (txid : Hash) :
    Option Hash :=
  match getRawTransaction txid with
  | none => none
  | some txraw =>
    match txraw.txIn.head? with
    | none => none
    | some txin => some txin.previousOutPoint.hash

/-- The n-fold iteration of `chainStep`. -/
def chainStepN (getRawTransaction : Hash → Option MsgTx) :
    Nat → Hash → Option Hash
  | 0, t => some t
  | n + 1, t =>
    match chainStep getRawTransaction t with
    | none => none
    | some t2 => chainStepN getRawTransaction n t2

/-- `findLastUnspent` (attestclient.go): propagate the `ListUnspent` RPC
error, otherwise return the first listed unspent whose txid walks back to
genesis, and `(false, empty result, nil error)` when none does. -/
def findLastUnspent (getRawTransaction : Hash → Option MsgTx)
    (listUnspent : Except String (List ListUnspentResult)) (txid0 : Hash)
    (fuel : Nat) : Except String (Bool × ListUnspentResult) :=
  match listUnspent with
  | .error e => .error e
  | .ok unspent =>
    match unspent.find?
        (fun vout => verifyTxOnSubchain getRawTransaction txid0 fuel
          vout.txid) with
    | some vout => .ok (true, vout)
    | none => .ok (false, emptyUnspent)

theorem verifyTxOnSubchain_iff (fetch : Hash → Option MsgTx) (txid0 : Hash) :
    ∀ (fuel : Nat) (t : Hash),
      verifyTxOnSubchain fetch txid0 fuel t = true ↔
        ∃ n, n ≤ fuel ∧ chainStepN fetch n t = some txid0 := by
  intro fuel
  induction fuel with
  | zero =>
    intro t
    rw [verifyTxOnSubchain]
    constructor
    · intro h
      by_cases ht : t = txid0
      · exact ⟨0, Nat.le_refl 0, by rw [ht]; rfl⟩
      · rw [if_neg ht] at h
        exact absurd h (by simp)
    · rintro ⟨n, hn, hstep⟩
      have hn0 : n = 0 := Nat.le_zero.mp hn
      subst hn0
      rw [chainStepN] at hstep
      injection hstep with hst
      rw [if_pos hst]
  | succ fuel ih =>
    intro t
    rw [verifyTxOnSubchain]
    by_cases ht : t = txid0
    · rw [if_pos ht]
      simp only [true_iff]
      exact ⟨0, Nat.zero_le _, by rw [ht]; rfl⟩
    · rw [if_neg ht]
      cases hf : fetch t with
      | none =>
        dsimp only []
        have hcs : chainStep fetch t = none := by
          unfold chainStep
          rw [hf]
        constructor
        · intro h
          exact absurd h (by simp)
        · rintro ⟨n, hn, hstep⟩
          cases n with
          | zero =>
            rw [chainStepN] at hstep
            injection hstep with hst
            exact absurd hst ht
          | succ m =>
            rw [chainStepN, hcs] at hstep
            exact absurd hstep (by simp)
      | some txraw =>
        dsimp only []
        cases hh : txraw.txIn.head? with
        | none =>
          dsimp only []
          have hcs : chainStep fetch t = none := by
            unfold chainStep
            rw [hf]
            dsimp only []
            rw [hh]
          constructor
          · intro h
            exact absurd h (by simp)
          · rintro ⟨n, hn, hstep⟩
            cases n with
            | zero =>
              rw [chainStepN] at hstep
              injection hstep with hst
              exact absurd hst ht
            | succ m =>
              rw [chainStepN, hcs] at hstep
              exact absurd hstep (by simp)
        | some txin =>
          dsimp only []
          have hcs : chainStep fetch t = some txin.previousOutPoint.hash := by
            unfold chainStep
            rw [hf]
            dsimp only []
            rw [hh]
          rw [ih]
          constructor
          · rintro ⟨n, hn, hstep⟩
            exact ⟨n + 1, by omega, by rw [chainStepN, hcs]; exact hstep⟩
          · rintro ⟨n, hn, hstep⟩
            cases n with
            | zero =>
              rw [chainStepN] at hstep
              injection hstep with hst
              exact absurd hst ht
            | succ m =>
              rw [chainStepN, hcs] at hstep
              exact ⟨m, by omega, hstep⟩

theorem find?_first {α : Type} (p : α → Bool) (l1 : List α) (v : α)
    (l2 : List α) (h1 : ∀ x ∈ l1, ¬p x = true) (hv : p v = true) :
    (l1 ++ v :: l2).find? p = some v := by
  induction l1 with
  | nil => exact List.find?_cons_of_pos l2 hv
  | cons a rest ih =>
    rw [List.cons_append, List.find?_cons_of_neg _ (h1 a (by simp))]
    exact ih fun x hx => h1 x (by simp [hx])

/-- C9: `verifyTxOnSubchain` returns true exactly when iterating the
previous-outpoint replacement reaches the genesis txid with every fetch
succeeding along the way (a failed fetch ends the walk with `false`);
`findLastUnspent` returns the first listed unspent whose txid satisfies the
walk, and `(false, empty result, nil error)` when none does. -/
theorem C9_subchain_walk (fetch : Hash → Option MsgTx) (txid0 : Hash)
    (fuel : Nat) :
    (∀ t, verifyTxOnSubchain fetch txid0 fuel t = true ↔
      ∃ n, n ≤ fuel ∧ chainStepN fetch n t = some txid0)
    ∧ (∀ (l1 l2 : List ListUnspentResult) (v : ListUnspentResult),
        (∀ x ∈ l1, ¬∃ n, n ≤ fuel ∧ chainStepN fetch n x.txid = some txid0) →
        (∃ n, n ≤ fuel ∧ chainStepN fetch n v.txid = some txid0) →
        findLastUnspent fetch (.ok (l1 ++ v :: l2)) txid0 fuel =
          .ok (true, v))
    ∧ (∀ us : List ListUnspentResult,
        (∀ x ∈ us, ¬∃ n, n ≤ fuel ∧ chainStepN fetch n x.txid = some txid0) →
        findLastUnspent fetch (.ok us) txid0 fuel =
          .ok (false, emptyUnspent)) := by
  refine ⟨verifyTxOnSubchain_iff fetch txid0 fuel, ?_, ?_⟩
  · intro l1 l2 v hnot hv
    unfold findLastUnspent
    dsimp only []
    rw [find?_first _ l1 v l2 ?hneg ?hpos]
    case hneg =>
      intro x hx h
      exact hnot x hx ((verifyTxOnSubchain_iff fetch txid0 fuel x.txid).mp h)
    case hpos =>
      exact (verifyTxOnSubchain_iff fetch txid0 fuel v.txid).mpr hv
  · intro us hnot
    unfold findLastUnspent
    dsimp only []
    rw [List.find?_eq_none.mpr ?hall]
    case hall =>
      intro x hx h
      exact hnot x hx ((verifyTxOnSubchain_iff fetch txid0 fuel x.txid).mp h)

/-- The transaction index used by the C9 witness: `h2`'s transaction spends
`h1`'s sole output and `h1`'s spends the genesis `h0`'s. -/
def fetchW : Hash → Option MsgTx := fun t =>
  if t = ⟨[2]⟩ then
    some { txIn := [{ previousOutPoint := ⟨⟨[1]⟩, 0⟩, signatureScript := [],
                      sequence := 0 }], txOut := [] }
  else if t = ⟨[1]⟩ then
    some { txIn := [{ previousOutPoint := ⟨⟨[0]⟩, 0⟩, signatureScript := [],
                      sequence := 0 }], txOut := [] }
  else none

/-- Witness for C9: the unspent on txid `h2` (two hops above genesis `h0`)
is found first in a two-element unspent list. -/
theorem C9_witness :
    findLastUnspent fetchW
        (.ok [{ txid := ⟨[2]⟩, vout := 0, amountSat := 7 },
              { txid := ⟨[9]⟩, vout := 0, amountSat := 8 }]) ⟨[0]⟩ 5 =
      .ok (true, { txid := ⟨[2]⟩, vout := 0, amountSat := 7 }) :=
  (C9_subchain_walk fetchW ⟨[0]⟩ 5).2.1 []
    [{ txid := ⟨[9]⟩, vout := 0, amountSat := 8 }]
    { txid := ⟨[2]⟩, vout := 0, amountSat := 7 }
    (fun x hx => absurd hx (List.not_mem_nil x))
    ⟨2, by omega, rfl⟩

end Mainstay
